import Mathlib

/-!
Verification of the InvisiVote confidential tally engine
(`contracts/InvisiVote.sol`) against its natural-language specification.

The contract is shallowly embedded as a pure state machine.  The external
FHE capability (the `euint32` homomorphic primitives of the fhevm library)
is modelled in the clear: a ciphertext is its underlying 32-bit value
together with the "publicly decryptable" grant; `FHE.eq`, `FHE.select` and
`FHE.add` are the corresponding plaintext operations with 32-bit wrap-around.
`FHE.checkSignatures` is an external proof check whose verdict is passed in
as a boolean parameter (the spec treats it as an opaque pass/fail
primitive).  An `Except.error` result models an EVM revert: the transaction
leaves the state unchanged, which the `step` wrapper makes explicit.
-/

namespace InvisiVote

/-- The modulus of the `euint32` / `uint32` type. -/
def u32Mod : Nat := 2 ^ 32

/-- The modulus of the `uint64` type (`createVote` casts `block.timestamp`
to `uint64` before comparing it with `endTime`). -/
def u64Mod : Nat := 2 ^ 64

/-- Clear model of an fhevm `euint32` handle: the encrypted 32-bit value
plus whether `FHE.makePubliclyDecryptable` has been called on it. -/
structure Euint32 where
  val : Nat
  pubDec : Bool
deriving DecidableEq, Repr

instance : Inhabited Euint32 := ⟨⟨0, false⟩⟩

/-- `FHE.asEuint32`: trivial encryption of a plain constant. -/
def fheAsEuint32 (n : Nat) : Euint32 := ⟨n % u32Mod, false⟩

/-- `FHE.add`: homomorphic 32-bit addition; the result is a fresh handle. -/
def fheAdd (a b : Euint32) : Euint32 := ⟨(a.val + b.val) % u32Mod, false⟩

/-- `FHE.eq`: homomorphic equality test producing an (encrypted) boolean. -/
def fheEq (a b : Euint32) : Bool := a.val == b.val

/-- `FHE.select`: homomorphic multiplexer on an encrypted boolean. -/
def fheSelect (c : Bool) (a b : Euint32) : Euint32 := ⟨if c then a.val else b.val, false⟩

/-- `FHE.makePubliclyDecryptable`: irreversible public-decryption grant. -/
def fheMakePubliclyDecryptable (a : Euint32) : Euint32 := ⟨a.val, true⟩

/-- `FHE.fromExternal` on a valid external input: yields the encrypted
32-bit choice value the caller committed to. -/
def fheFromExternal (choice : Nat) : Euint32 := ⟨choice % u32Mod, false⟩

/-- The `Vote` struct of the contract.  Addresses are modelled as `Nat`. -/
structure Vote where
  title : String
  options : List String
  startTime : Nat
  endTime : Nat
  creator : Nat
  decryptionRequested : Bool
  resultsPublished : Bool
  encryptedCounts : List Euint32
  publicResults : List Nat
deriving DecidableEq, Repr

instance : Inhabited Vote := ⟨⟨"", [], 0, 0, 0, false, false, [], []⟩⟩

/-- Contract storage: `_votes` keyed by id (`votes[i]` is the vote with id
`i + 1`, so `_voteCount = votes.length` — ids are assigned by the sequential
counter, never sparsely), and `_hasVoted` as the set of marked
`(voteId, voter)` pairs. -/
structure VoteState where
  votes : List Vote
  hasVoted : List (Nat × Nat)
deriving DecidableEq, Repr

/-- Storage of a freshly deployed contract. -/
def initialState : VoteState := ⟨[], []⟩

/-- The custom errors declared by the contract, plus
`decryptionProofInvalid`, which models the revert propagated out of the
external `FHE.checkSignatures` primitive when the decryption proof does not
verify. -/
inductive VErr where
  | voteNotFound (voteId : Nat)
  | invalidOptionsCount (count : Nat)
  | invalidTimeRange (startTime endTime : Nat)
  | votingNotStarted (voteId : Nat)
  | votingStillActive (voteId : Nat)
  | votingEnded (voteId : Nat)
  | alreadyVoted (voteId : Nat) (voter : Nat)
  | decryptionAlreadyRequested (voteId : Nat)
  | resultsNotReady (voteId : Nat)
  | resultsAlreadyPublished (voteId : Nat)
  | invalidResultsLength (expected actual : Nat)
  | decryptionProofInvalid (voteId : Nat)
deriving DecidableEq, Repr

/-- The vote stored at list position `i` (id `i + 1`); out-of-range
positions give the all-default record, matching an untouched storage slot. -/
def voteAt (s : VoteState) (i : Nat) : Vote := s.votes.getD i default

/-- The `_hasVoted[voteId][voter]` flag. -/
def hasVotedMark (s : VoteState) (voteId voter : Nat) : Bool :=
  s.hasVoted.contains (voteId, voter)

/-- The `_getVote` existence guard: `voteId != 0 && voteId <= _voteCount`. -/
def voteIdOk (s : VoteState) (voteId : Nat) : Prop :=
  voteId ≠ 0 ∧ voteId ≤ s.votes.length

instance (s : VoteState) (voteId : Nat) : Decidable (voteIdOk s voteId) := by
  unfold voteIdOk; infer_instance

/-- `createVote`.  `now` is `block.timestamp`, `sender` is `msg.sender`.
Returns the new state together with the returned `voteId`.  The per-option
loop of the contract pushes one option label and one fresh encrypted zero
per option, i.e. it stores `options` unchanged and `replicate options.length
(FHE.asEuint32 0)` as the accumulators (`FHE.allowThis` is a contract-side
ACL grant with no observable effect in this model). -/
def createVote (now sender : Nat) (title : String) (options : List String)
    (startTime endTime : Nat) (s : VoteState) : Except VErr (VoteState × Nat) :=
  if options.length < 2 ∨ 4 < options.length then
    .error (.invalidOptionsCount options.length)
  else if endTime ≤ startTime ∨ endTime ≤ now % u64Mod then
    .error (.invalidTimeRange startTime endTime)
  else
    .ok (⟨s.votes ++
            [⟨title, options, startTime, endTime, sender, false, false,
              List.replicate options.length (fheAsEuint32 0), []⟩],
          s.hasVoted⟩,
         s.votes.length + 1)

/-- One iteration of the oblivious-increment loop of `castVote`:
`isSelected = FHE.eq(choice, i)`, `increment = FHE.select(isSelected, 1, 0)`,
`counts[i] = FHE.add(counts[i], increment)`. -/
def bumpCount (choiceC : Euint32) (i : Nat) (c : Euint32) : Euint32 :=
  fheAdd c (fheSelect (fheEq choiceC (fheAsEuint32 i)) (fheAsEuint32 1) (fheAsEuint32 0))

/-- The oblivious-increment loop from position `j`: every index `i` with
`j ≤ i < k` of the accumulator list is updated via `bumpCount`, touching
every accumulator regardless of the secret choice. -/
def incFrom (choiceC : Euint32) (k : Nat) : Nat → List Euint32 → List Euint32
  | _, [] => []
  | j, c :: cs => (if j < k then bumpCount choiceC j c else c) :: incFrom choiceC k (j + 1) cs

/-- The full oblivious-increment pass of `castVote` over the `k = optionCount`
accumulators. -/
def incrementCounts (choiceC : Euint32) (k : Nat) (counts : List Euint32) : List Euint32 :=
  incFrom choiceC k 0 counts

/-- `castVote`.  The `_getVote` guard is inlined as the first check; the
remaining checks and the update follow the contract line by line.  `choice`
is the plain value inside the caller's valid external encrypted input. -/
def castVote (now sender voteId choice : Nat) (s : VoteState) : Except VErr VoteState :=
  if ¬ voteIdOk s voteId then .error (.voteNotFound voteId)
  else if now < (voteAt s (voteId - 1)).startTime then .error (.votingNotStarted voteId)
  else if (voteAt s (voteId - 1)).endTime < now then .error (.votingEnded voteId)
  else if hasVotedMark s voteId sender = true then .error (.alreadyVoted voteId sender)
  else
    Except.ok ⟨s.votes.set (voteId - 1)
           { voteAt s (voteId - 1) with
             encryptedCounts :=
               incrementCounts (fheFromExternal choice)
                 (voteAt s (voteId - 1)).options.length
                 (voteAt s (voteId - 1)).encryptedCounts },
         (voteId, sender) :: s.hasVoted⟩

/-- `requestResultsDecryption`. -/
def requestResultsDecryption (now voteId : Nat) (s : VoteState) : Except VErr VoteState :=
  if ¬ voteIdOk s voteId then .error (.voteNotFound voteId)
  else if now ≤ (voteAt s (voteId - 1)).endTime then .error (.votingStillActive voteId)
  else if (voteAt s (voteId - 1)).decryptionRequested = true then
    .error (.decryptionAlreadyRequested voteId)
  else
    .ok ⟨s.votes.set (voteId - 1)
           { voteAt s (voteId - 1) with
             decryptionRequested := true,
             encryptedCounts :=
               (voteAt s (voteId - 1)).encryptedCounts.map fheMakePubliclyDecryptable },
         s.hasVoted⟩

/-- `publishResults`.  `proofOk` is the verdict of the external
`FHE.checkSignatures(handles, cleartexts, decryptionProof)` call on the
stored accumulator handles and the claimed clear counts; `false` makes that
call revert, which surfaces as `decryptionProofInvalid`. -/
def publishResults (proofOk : Bool) (voteId : Nat) (clearCounts : List Nat)
    (s : VoteState) : Except VErr VoteState :=
  if ¬ voteIdOk s voteId then .error (.voteNotFound voteId)
  else if (voteAt s (voteId - 1)).decryptionRequested = false then
    .error (.resultsNotReady voteId)
  else if (voteAt s (voteId - 1)).resultsPublished = true then
    .error (.resultsAlreadyPublished voteId)
  else if clearCounts.length ≠ (voteAt s (voteId - 1)).options.length then
    .error (.invalidResultsLength (voteAt s (voteId - 1)).options.length clearCounts.length)
  else if proofOk = false then .error (.decryptionProofInvalid voteId)
  else
    .ok ⟨s.votes.set (voteId - 1)
           { voteAt s (voteId - 1) with
             publicResults := clearCounts, resultsPublished := true },
         s.hasVoted⟩

/-- A state-changing entry point of the contract, with its call context. -/
inductive Op where
  | create (now sender : Nat) (title : String) (options : List String)
      (startTime endTime : Nat)
  | cast (now sender voteId choice : Nat)
  | requestDec (now voteId : Nat)
  | publish (proofOk : Bool) (voteId : Nat) (clearCounts : List Nat)
deriving DecidableEq, Repr

/-- Run one entry point, discarding any return value. -/
def applyOp (op : Op) (s : VoteState) : Except VErr VoteState :=
  match op with
  | .create now sender title options st en =>
      match createVote now sender title options st en s with
      | .ok p => .ok p.1
      | .error e => .error e
  | .cast now sender voteId choice => castVote now sender voteId choice s
  | .requestDec now voteId => requestResultsDecryption now voteId s
  | .publish proofOk voteId clearCounts => publishResults proofOk voteId clearCounts s

/-- Transaction semantics: a revert (error) leaves the storage unchanged. -/
def step (op : Op) (s : VoteState) : VoteState :=
  match applyOp op s with
  | .ok s' => s'
  | .error _ => s

instance {ε α : Type} [DecidableEq ε] [DecidableEq α] : DecidableEq (Except ε α) :=
  fun a b =>
    match a, b with
    | .error e, .error f =>
        if h : e = f then isTrue (by rw [h])
        else isFalse (fun hc => h (Except.error.inj hc))
    | .error _, .ok _ => isFalse (fun hc => Except.noConfusion hc)
    | .ok _, .error _ => isFalse (fun hc => Except.noConfusion hc)
    | .ok x, .ok y =>
        if h : x = y then isTrue (by rw [h])
        else isFalse (fun hc => h (Except.ok.inj hc))

/-- Whether a call succeeded (did not revert). -/
def callOk (r : Except VErr VoteState) : Bool :=
  match r with
  | .ok _ => true
  | .error _ => false

/-- Per-poll length consistency: one encrypted accumulator per option, and,
once results are published, one plain result per option. -/
def VoteWF (v : Vote) : Prop :=
  v.encryptedCounts.length = v.options.length ∧
  (v.resultsPublished = true → v.publicResults.length = v.options.length)

instance (v : Vote) : Decidable (VoteWF v) := by
  unfold VoteWF; infer_instance

/-- State-wide length consistency, for every stored poll. -/
def StateWF (s : VoteState) : Prop := ∀ v ∈ s.votes, VoteWF v

instance (s : VoteState) : Decidable (StateWF s) := by
  unfold StateWF; infer_instance

/-- Demo poll with two options and voting window `[10, 20]`. -/
def windowDemo : VoteState := step (.create 1 5 "w" ["x", "y"] 10 20) initialState

/-- `windowDemo` after voter 1 cast an accepted ballot for option 0 at time 15. -/
def votedDemo : VoteState := step (.cast 15 1 1 0) windowDemo

/-- `votedDemo` after decryption was requested at time 21 (one past `endTime`). -/
def reqDemo : VoteState := step (.requestDec 21 1) votedDemo

/-- `reqDemo` after the results `[1, 0]` were published with a valid proof. -/
def pubDemo : VoteState := step (.publish true 1 [1, 0]) reqDemo

/-! ### Basic list-level helper lemmas -/

theorem getD_set_self {α : Type} [Inhabited α] (l : List α) (i : Nat) (a : α)
    (h : i < l.length) : (l.set i a).getD i default = a := by
  simp [List.getD, List.getElem?_set_self, h]

theorem getD_set_ne {α : Type} [Inhabited α] (l : List α) (i j : Nat) (a : α)
    (h : i ≠ j) : (l.set i a).getD j default = l.getD j default := by
  simp [List.getD, List.getElem?_set_ne h]

theorem getD_append_right {α : Type} [Inhabited α] (l : List α) (a : α) :
    (l ++ [a]).getD l.length default = a := by
  simp [List.getD, List.getElem?_append_right (Nat.le_refl l.length)]

theorem getD_append_left {α : Type} [Inhabited α] (l : List α) (a : α) (j : Nat)
    (h : j ≠ l.length) : (l ++ [a]).getD j default = l.getD j default := by
  rcases Nat.lt_or_ge j l.length with hj | hj
  · simp [List.getD, List.getElem?_append_left hj]
  · have hjl : l.length < j := Nat.lt_of_le_of_ne hj (fun e => h e.symm)
    have h2 : (l ++ [a])[j]? = none := by
      apply List.getElem?_eq_none
      simp only [List.length_append, List.length_cons, List.length_nil]
      omega
    have h3 : l[j]? = none := List.getElem?_eq_none (Nat.le_of_lt hjl)
    simp [List.getD, h2, h3]

/-! ### Lemmas about the oblivious-increment loop -/

theorem incFrom_length (x : Euint32) (k : Nat) (j : Nat) (counts : List Euint32) :
    (incFrom x k j counts).length = counts.length := by
  induction counts generalizing j with
  | nil => rfl
  | cons c cs ih => simp [incFrom, ih]

theorem incrementCounts_length (x : Euint32) (k : Nat) (counts : List Euint32) :
    (incrementCounts x k counts).length = counts.length :=
  incFrom_length x k 0 counts

theorem castVote_ok_iff (now sender voteId choice : Nat) (s s₂ : VoteState) :
    castVote now sender voteId choice s = .ok s₂ ↔
      voteIdOk s voteId ∧
      (voteAt s (voteId - 1)).startTime ≤ now ∧
      now ≤ (voteAt s (voteId - 1)).endTime ∧
      hasVotedMark s voteId sender = false ∧
      s₂ = ⟨s.votes.set (voteId - 1)
              { voteAt s (voteId - 1) with
                encryptedCounts :=
                  incrementCounts (fheFromExternal choice)
                    (voteAt s (voteId - 1)).options.length
                    (voteAt s (voteId - 1)).encryptedCounts },
            (voteId, sender) :: s.hasVoted⟩ := by
  unfold castVote
  split_ifs with h1 h2 h3 h4
  · constructor
    · intro h; exact absurd h (by simp)
    · rintro ⟨-, hst, -⟩; omega
  · constructor
    · intro h; exact absurd h (by simp)
    · rintro ⟨-, -, hen, -⟩; omega
  · constructor
    · intro h; exact absurd h (by simp)
    · rintro ⟨-, -, -, hmk, -⟩; rw [h4] at hmk; exact Bool.noConfusion hmk
  · constructor
    · intro h
      refine ⟨h1, Nat.le_of_not_lt h2, Nat.le_of_not_lt h3,
        Bool.not_eq_true _ |>.mp h4, (Except.ok.inj h).symm⟩
    · rintro ⟨-, -, -, -, hs⟩; rw [hs]
  · constructor
    · intro h; exact absurd h (by simp)
    · rintro ⟨hid, -⟩; exact absurd hid h1

theorem createVote_ok_iff (now sender : Nat) (title : String) (options : List String)
    (startTime endTime : Nat) (s : VoteState) (s₂ : VoteState) (voteId : Nat) :
    createVote now sender title options startTime endTime s = .ok (s₂, voteId) ↔
      2 ≤ options.length ∧ options.length ≤ 4 ∧
      startTime < endTime ∧ now % u64Mod < endTime ∧
      voteId = s.votes.length + 1 ∧
      s₂ = ⟨s.votes ++
              [⟨title, options, startTime, endTime, sender, false, false,
                List.replicate options.length (fheAsEuint32 0), []⟩],
            s.hasVoted⟩ := by
  unfold createVote
  split_ifs with h1 h2
  · constructor
    · intro h; exact absurd h (by simp)
    · rintro ⟨ha, hb, -⟩; omega
  · constructor
    · intro h; exact absurd h (by simp)
    · rintro ⟨-, -, hc, hd, -⟩; omega
  · push_neg at h1 h2
    constructor
    · intro h
      have hinj := Except.ok.inj h
      refine ⟨h1.1, h1.2, h2.1, h2.2, ?_, ?_⟩
      · exact (congrArg Prod.snd hinj).symm
      · exact (congrArg Prod.fst hinj).symm
    · rintro ⟨-, -, -, -, hid, hs⟩; rw [hid, hs]

theorem requestDec_ok_iff (now voteId : Nat) (s s₂ : VoteState) :
    requestResultsDecryption now voteId s = .ok s₂ ↔
      voteIdOk s voteId ∧
      (voteAt s (voteId - 1)).endTime < now ∧
      (voteAt s (voteId - 1)).decryptionRequested = false ∧
      s₂ = ⟨s.votes.set (voteId - 1)
              { voteAt s (voteId - 1) with
                decryptionRequested := true,
                encryptedCounts :=
                  (voteAt s (voteId - 1)).encryptedCounts.map fheMakePubliclyDecryptable },
            s.hasVoted⟩ := by
  unfold requestResultsDecryption
  split_ifs with h1 h2 h3
  · constructor
    · intro h; exact absurd h (by simp)
    · rintro ⟨-, hen, -⟩; omega
  · constructor
    · intro h; exact absurd h (by simp)
    · rintro ⟨-, -, hdr, -⟩; rw [h3] at hdr; exact Bool.noConfusion hdr
  · constructor
    · intro h
      exact ⟨h1, Nat.lt_of_not_le h2, Bool.not_eq_true _ |>.mp h3, (Except.ok.inj h).symm⟩
    · rintro ⟨-, -, -, hs⟩; rw [hs]
  · constructor
    · intro h; exact absurd h (by simp)
    · rintro ⟨hid, -⟩; exact absurd hid h1

theorem publishResults_ok_iff (proofOk : Bool) (voteId : Nat) (clearCounts : List Nat)
    (s s₂ : VoteState) :
    publishResults proofOk voteId clearCounts s = .ok s₂ ↔
      voteIdOk s voteId ∧
      (voteAt s (voteId - 1)).decryptionRequested = true ∧
      (voteAt s (voteId - 1)).resultsPublished = false ∧
      clearCounts.length = (voteAt s (voteId - 1)).options.length ∧
      proofOk = true ∧
      s₂ = ⟨s.votes.set (voteId - 1)
              { voteAt s (voteId - 1) with
                publicResults := clearCounts, resultsPublished := true },
            s.hasVoted⟩ := by
  unfold publishResults
  split_ifs with h1 h2 h3 h4 h5
  · constructor
    · intro h; exact absurd h (by simp)
    · rintro ⟨-, hdr, -⟩; rw [h2] at hdr; exact Bool.noConfusion hdr
  · constructor
    · intro h; exact absurd h (by simp)
    · rintro ⟨-, -, hrp, -⟩; rw [h3] at hrp; exact Bool.noConfusion hrp
  · constructor
    · intro h; exact absurd h (by simp)
    · rintro ⟨-, -, -, hlen, -⟩; exact absurd hlen h4
  · constructor
    · intro h; exact absurd h (by simp)
    · rintro ⟨-, -, -, -, hpf, -⟩; rw [h5] at hpf; exact Bool.noConfusion hpf
  · constructor
    · intro h
      refine ⟨h1, ?_, ?_, not_not.mp h4, ?_, (Except.ok.inj h).symm⟩
      · exact Bool.not_eq_false _ |>.mp h2
      · exact Bool.not_eq_true _ |>.mp h3
      · exact Bool.not_eq_false _ |>.mp h5
    · rintro ⟨-, -, -, -, -, hs⟩; rw [hs]
  · constructor
    · intro h; exact absurd h (by simp)
    · rintro ⟨hid, -⟩; exact absurd hid h1

/-! ### Multi-ballot tally lemmas -/

/-- A reverted call leaves the storage unchanged. -/
theorem step_of_error (op : Op) (s : VoteState) (e : VErr)
    (h : applyOp op s = .error e) : step op s = s := by
  unfold step
  rw [h]

/-! ### Claim C1: oblivious tally correctness -/

/-- C6.  `createVote` fails `InvalidOptionsCount` exactly when the option
count is outside `[2, 4]`; otherwise it fails `InvalidTimeRange` exactly
when `endTime ≤ startTime` or `endTime ≤ now`; otherwise it succeeds,
allocating the next sequential id (`voteCount + 1`, so the first poll gets
id 1), storing the poll with both flags false, no published results and
one zeroed encrypted accumulator per option. -/
theorem create_vote_validation (now sender : Nat) (title : String)
    (options : List String) (startTime endTime : Nat) (s : VoteState)
    (hnow : now < u64Mod) :
    (createVote now sender title options startTime endTime s =
        .error (.invalidOptionsCount options.length) ↔
      options.length < 2 ∨ 4 < options.length) ∧
    (2 ≤ options.length ∧ options.length ≤ 4 →
      (createVote now sender title options startTime endTime s =
          .error (.invalidTimeRange startTime endTime) ↔
        endTime ≤ startTime ∨ endTime ≤ now)) ∧
    (2 ≤ options.length ∧ options.length ≤ 4 ∧ startTime < endTime ∧ now < endTime →
      createVote now sender title options startTime endTime s =
        .ok (⟨s.votes ++
                [⟨title, options, startTime, endTime, sender, false, false,
                  List.replicate options.length (fheAsEuint32 0), []⟩],
              s.hasVoted⟩,
             s.votes.length + 1)) := by
  have hmod : now % u64Mod = now := Nat.mod_eq_of_lt hnow
  unfold createVote
  rw [hmod]
  split_ifs with h1 h2
  · refine ⟨⟨fun _ => h1, fun _ => rfl⟩, ?_, ?_⟩
    · rintro ⟨ha, hb⟩; exfalso; rcases h1 with h | h <;> omega
    · rintro ⟨ha, hb, -⟩; exfalso; rcases h1 with h | h <;> omega
  · refine ⟨?_, ?_, ?_⟩
    · constructor
      · intro h; exact absurd h (by simp)
      · intro hc; exact absurd hc h1
    · intro hlen; exact ⟨fun _ => h2, fun _ => rfl⟩
    · rintro ⟨-, -, hse, hne⟩; exfalso; rcases h2 with h | h <;> omega
  · refine ⟨?_, ?_, fun _ => rfl⟩
    · constructor
      · intro h; exact absurd h (by simp)
      · intro hc; exact absurd hc h1
    · intro hlen
      constructor
      · intro h; exact absurd h (by simp)
      · intro hc; exact absurd hc h2

/-- Witness for C6: a concrete valid creation succeeds, stores the poll
with zeroed accumulators and returns id 1. -/
theorem create_vote_validation_witness :
    createVote 1 5 "w" ["x", "y"] 10 20 initialState =
      .ok (⟨[⟨"w", ["x", "y"], 10, 20, 5, false, false,
              [fheAsEuint32 0, fheAsEuint32 0], []⟩], []⟩, 1) :=
  (create_vote_validation 1 5 "w" ["x", "y"] 10 20 initialState
    (by norm_num [u64Mod])).2.2 ⟨by norm_num, by norm_num, by norm_num, by norm_num⟩

/-! ### Claim C8: postcondition of a successful creation -/

/-- C8 counterexample: the claimed postcondition `end_time > start_time > 0`
fails because `createVote` never checks `startTime > 0`: a creation with
`startTime = 0` (and `endTime = 10`, `now = 1`) succeeds, and the stored
poll has `startTime = 0`. -/
theorem create_accepts_zero_start :
    callOk (Except.map Prod.fst (createVote 1 9 "z" ["x", "y"] 0 10 initialState)) = true ∧
    (voteAt (step (.create 1 9 "z" ["x", "y"] 0 10) initialState) 0).startTime = 0 := by
  exact ⟨rfl, rfl⟩

/-- C8 (amended).  Every successful `createVote` stores a poll whose option
count lies in `[2, 4]` and whose `endTime` is strictly greater than its
`startTime` (the code imposes no lower bound on `startTime`, so
`startTime > 0` is not guaranteed). -/
theorem create_vote_postcondition (now sender : Nat) (title : String)
    (options : List String) (startTime endTime : Nat) (s s₂ : VoteState) (voteId : Nat)
    (h : createVote now sender title options startTime endTime s = .ok (s₂, voteId)) :
    2 ≤ (voteAt s₂ (voteId - 1)).options.length ∧
    (voteAt s₂ (voteId - 1)).options.length ≤ 4 ∧
    (voteAt s₂ (voteId - 1)).startTime < (voteAt s₂ (voteId - 1)).endTime := by
  rw [createVote_ok_iff] at h
  obtain ⟨h2, h4, hse, -, hid, hs⟩ := h
  have hva : voteAt s₂ (voteId - 1) =
      ⟨title, options, startTime, endTime, sender, false, false,
        List.replicate options.length (fheAsEuint32 0), []⟩ := by
    rw [hs]
    unfold voteAt
    have hp : voteId - 1 = s.votes.length := by omega
    rw [hp]
    exact getD_append_right s.votes _
  rw [hva]
  exact ⟨h2, h4, hse⟩

/-- Witness for C8 (amended): the demo creation satisfies the amended
postcondition. -/
theorem create_vote_postcondition_witness :
    2 ≤ (voteAt windowDemo 0).options.length ∧
    (voteAt windowDemo 0).options.length ≤ 4 ∧
    (voteAt windowDemo 0).startTime < (voteAt windowDemo 0).endTime :=
  create_vote_postcondition 1 5 "w" ["x", "y"] 10 20 initialState windowDemo 1 (by rfl)

/-! ### Claim C5: cast_vote precondition order and acceptance window -/

/-- C5 counterexample: the acceptance window is not half-open — both
endpoints are accepted.  On the demo poll with window `[10, 20]`, a ballot
at `now = 20` (excluded by the half-open reading `[start, end)`) and a
ballot at `now = 10` (excluded by the reading `(start, end]`) both succeed. -/
theorem cast_vote_accepts_both_endpoints :
    callOk (castVote 20 7 1 0 windowDemo) = true ∧
    callOk (castVote 10 8 1 0 windowDemo) = true := by
  exact ⟨rfl, rfl⟩

/-- C5 (amended).  `castVote` checks its preconditions in order — existence
(`VoteNotFound`), `now ≥ startTime` (`VotingNotStarted`), `now ≤ endTime`
(`VotingEnded`), unvoted marker (`AlreadyVoted`) — and for an existing poll
and a fresh voter, exactly the CLOSED interval `[startTime, endTime]`
accepts votes. -/
theorem cast_vote_precondition_order (now sender voteId choice : Nat) (s : VoteState) :
    (¬ voteIdOk s voteId →
      castVote now sender voteId choice s = .error (.voteNotFound voteId)) ∧
    (voteIdOk s voteId → now < (voteAt s (voteId - 1)).startTime →
      castVote now sender voteId choice s = .error (.votingNotStarted voteId)) ∧
    (voteIdOk s voteId → (voteAt s (voteId - 1)).startTime ≤ now →
      (voteAt s (voteId - 1)).endTime < now →
      castVote now sender voteId choice s = .error (.votingEnded voteId)) ∧
    (voteIdOk s voteId → (voteAt s (voteId - 1)).startTime ≤ now →
      now ≤ (voteAt s (voteId - 1)).endTime → hasVotedMark s voteId sender = true →
      castVote now sender voteId choice s = .error (.alreadyVoted voteId sender)) ∧
    (voteIdOk s voteId → hasVotedMark s voteId sender = false →
      (callOk (castVote now sender voteId choice s) = true ↔
        (voteAt s (voteId - 1)).startTime ≤ now ∧
          now ≤ (voteAt s (voteId - 1)).endTime)) := by
  refine ⟨?_, ?_, ?_, ?_, ?_⟩
  · intro h
    unfold castVote
    rw [if_pos h]
  · intro hid h2
    unfold castVote
    rw [if_neg (not_not_intro hid), if_pos h2]
  · intro hid h2 h3
    unfold castVote
    rw [if_neg (not_not_intro hid), if_neg (by omega), if_pos h3]
  · intro hid h2 h3 h4
    unfold castVote
    rw [if_neg (not_not_intro hid), if_neg (by omega), if_neg (by omega), if_pos h4]
  · intro hid hmk
    constructor
    · intro h
      unfold callOk at h
      cases hcv : castVote now sender voteId choice s with
      | error e => rw [hcv] at h; simp at h
      | ok s₂ =>
        rw [castVote_ok_iff] at hcv
        exact ⟨hcv.2.1, hcv.2.2.1⟩
    · rintro ⟨h2, h3⟩
      have : castVote now sender voteId choice s = .ok _ :=
        (castVote_ok_iff now sender voteId choice s _).mpr ⟨hid, h2, h3, hmk, rfl⟩
      rw [this]
      rfl

/-- Witness for C5 (amended): on the demo poll — existing, fresh voter —
acceptance at `now = 15` holds via the closed-interval characterization,
and a too-early attempt at `now = 5` fails `VotingNotStarted`. -/
theorem cast_vote_precondition_order_witness :
    callOk (castVote 15 9 1 0 windowDemo) = true ∧
    castVote 5 9 1 0 windowDemo = .error (.votingNotStarted 1) := by
  constructor
  · exact ((cast_vote_precondition_order 15 9 1 0 windowDemo).2.2.2.2 (by decide)
      (by decide)).mpr ⟨by decide, by decide⟩
  · exact (cast_vote_precondition_order 5 9 1 0 windowDemo).2.1 (by decide) (by decide)

/-! ### Claim C7: request_decryption boundary and effect -/

/-- C7.  For an existing poll: `requestResultsDecryption` fails
`VotingStillActive` whenever `now ≤ endTime` (so at `endTime` and earlier);
with the flag already set it fails `DecryptionAlreadyRequested`; with
`now > endTime` (in particular at `endTime + 1`) and the flag unset it
succeeds, sets `decryptionRequested = true`, marks every accumulator of the
poll publicly decryptable, and any later second call fails
`DecryptionAlreadyRequested`. -/
theorem request_decryption_spec (now voteId : Nat) (s : VoteState)
    (hid : voteIdOk s voteId) :
    (now ≤ (voteAt s (voteId - 1)).endTime →
      requestResultsDecryption now voteId s = .error (.votingStillActive voteId)) ∧
    ((voteAt s (voteId - 1)).endTime < now →
      (voteAt s (voteId - 1)).decryptionRequested = true →
      requestResultsDecryption now voteId s = .error (.decryptionAlreadyRequested voteId)) ∧
    ((voteAt s (voteId - 1)).endTime < now →
      (voteAt s (voteId - 1)).decryptionRequested = false →
      ∃ s₂, requestResultsDecryption now voteId s = .ok s₂ ∧
        (voteAt s₂ (voteId - 1)).decryptionRequested = true ∧
        (voteAt s₂ (voteId - 1)).encryptedCounts =
          (voteAt s (voteId - 1)).encryptedCounts.map fheMakePubliclyDecryptable ∧
        (∀ c ∈ (voteAt s₂ (voteId - 1)).encryptedCounts, c.pubDec = true) ∧
        ∀ now2, now ≤ now2 →
          requestResultsDecryption now2 voteId s₂ =
            .error (.decryptionAlreadyRequested voteId)) := by
  obtain ⟨hne, hle⟩ := hid
  have hid : voteIdOk s voteId := ⟨hne, hle⟩
  have hp : voteId - 1 < s.votes.length := by omega
  refine ⟨?_, ?_, ?_⟩
  · intro h
    unfold requestResultsDecryption
    rw [if_neg (not_not_intro hid), if_pos h]
  · intro h hdr
    unfold requestResultsDecryption
    rw [if_neg (not_not_intro hid), if_neg (by omega), if_pos hdr]
  · intro h hdr
    have hok : requestResultsDecryption now voteId s =
        .ok ⟨s.votes.set (voteId - 1)
               { voteAt s (voteId - 1) with
                 decryptionRequested := true,
                 encryptedCounts :=
                   (voteAt s (voteId - 1)).encryptedCounts.map
                     fheMakePubliclyDecryptable },
             s.hasVoted⟩ :=
      (requestDec_ok_iff now voteId s _).mpr ⟨hid, h, hdr, rfl⟩
    refine ⟨_, hok, ?_⟩
    have hva : voteAt
        (⟨s.votes.set (voteId - 1)
            { voteAt s (voteId - 1) with
              decryptionRequested := true,
              encryptedCounts :=
                (voteAt s (voteId - 1)).encryptedCounts.map fheMakePubliclyDecryptable },
          s.hasVoted⟩ : VoteState) (voteId - 1) =
        { voteAt s (voteId - 1) with
          decryptionRequested := true,
          encryptedCounts :=
            (voteAt s (voteId - 1)).encryptedCounts.map fheMakePubliclyDecryptable } := by
      unfold voteAt
      exact getD_set_self s.votes (voteId - 1) _ hp
    refine ⟨by rw [hva], by rw [hva], ?_, ?_⟩
    · intro c hc
      rw [hva] at hc
      simp only [List.mem_map] at hc
      obtain ⟨a, -, rfl⟩ := hc
      rfl
    · intro now2 hn2
      have hid₂ : voteIdOk
          (⟨s.votes.set (voteId - 1)
              { voteAt s (voteId - 1) with
                decryptionRequested := true,
                encryptedCounts :=
                  (voteAt s (voteId - 1)).encryptedCounts.map fheMakePubliclyDecryptable },
            s.hasVoted⟩ : VoteState) voteId := by
        refine ⟨hne, ?_⟩
        simpa using hle
      unfold requestResultsDecryption
      rw [if_neg (not_not_intro hid₂), if_neg (by rw [hva]; simp only []; omega),
        if_pos (by rw [hva])]

/-- Witness for C7: on the demo poll (window ending at 20), a request at 20
fails `VotingStillActive`, a request at 21 succeeds, and a second request
fails `DecryptionAlreadyRequested`. -/
theorem request_decryption_spec_witness :
    requestResultsDecryption 20 1 votedDemo = .error (.votingStillActive 1) ∧
    callOk (requestResultsDecryption 21 1 votedDemo) = true ∧
    requestResultsDecryption 25 1 reqDemo = .error (.decryptionAlreadyRequested 1) := by
  refine ⟨?_, ?_, ?_⟩
  · exact (request_decryption_spec 20 1 votedDemo (by decide)).1 (by decide)
  · obtain ⟨s₂, hok, -⟩ :=
      (request_decryption_spec 21 1 votedDemo (by decide)).2.2 (by decide) (by decide)
    rw [hok]
    rfl
  · exact (request_decryption_spec 25 1 reqDemo (by decide)).2.1 (by decide) (by decide)

/-! ### Claim C2: publish_results error contract -/

/-- C2.  For an existing poll: `publishResults` fails `ResultsNotReady` when
decryption was not requested; fails `ResultsAlreadyPublished` when results
were already published; fails `InvalidResultsLength` when the supplied
array length differs from the option count; fails `DecryptionProofInvalid`
with no state change when the external proof check rejects; and otherwise
succeeds, storing the clear counts, setting `resultsPublished = true`, after
which every further `publishResults` call fails `ResultsAlreadyPublished`. -/
theorem publish_results_spec (proofOk : Bool) (voteId : Nat) (clearCounts : List Nat)
    (s : VoteState) (hid : voteIdOk s voteId) :
    ((voteAt s (voteId - 1)).decryptionRequested = false →
      publishResults proofOk voteId clearCounts s = .error (.resultsNotReady voteId)) ∧
    ((voteAt s (voteId - 1)).decryptionRequested = true →
      (voteAt s (voteId - 1)).resultsPublished = true →
      publishResults proofOk voteId clearCounts s =
        .error (.resultsAlreadyPublished voteId)) ∧
    ((voteAt s (voteId - 1)).decryptionRequested = true →
      (voteAt s (voteId - 1)).resultsPublished = false →
      clearCounts.length ≠ (voteAt s (voteId - 1)).options.length →
      publishResults proofOk voteId clearCounts s =
        .error (.invalidResultsLength (voteAt s (voteId - 1)).options.length
          clearCounts.length)) ∧
    ((voteAt s (voteId - 1)).decryptionRequested = true →
      (voteAt s (voteId - 1)).resultsPublished = false →
      clearCounts.length = (voteAt s (voteId - 1)).options.length →
      proofOk = false →
      publishResults proofOk voteId clearCounts s =
          .error (.decryptionProofInvalid voteId) ∧
        step (.publish proofOk voteId clearCounts) s = s) ∧
    ((voteAt s (voteId - 1)).decryptionRequested = true →
      (voteAt s (voteId - 1)).resultsPublished = false →
      clearCounts.length = (voteAt s (voteId - 1)).options.length →
      proofOk = true →
      ∃ s₂, publishResults proofOk voteId clearCounts s = .ok s₂ ∧
        (voteAt s₂ (voteId - 1)).publicResults = clearCounts ∧
        (voteAt s₂ (voteId - 1)).resultsPublished = true ∧
        ∀ (proofOk2 : Bool) (clearCounts2 : List Nat),
          publishResults proofOk2 voteId clearCounts2 s₂ =
            .error (.resultsAlreadyPublished voteId)) := by
  obtain ⟨hne, hle⟩ := hid
  have hid : voteIdOk s voteId := ⟨hne, hle⟩
  have hp : voteId - 1 < s.votes.length := by omega
  refine ⟨?_, ?_, ?_, ?_, ?_⟩
  · intro h
    unfold publishResults
    rw [if_neg (not_not_intro hid), if_pos h]
  · intro hdr hpub
    unfold publishResults
    rw [if_neg (not_not_intro hid), if_neg (by rw [hdr]; exact fun hc => Bool.noConfusion hc),
      if_pos hpub]
  · intro hdr hpub hlen
    unfold publishResults
    rw [if_neg (not_not_intro hid), if_neg (by rw [hdr]; exact fun hc => Bool.noConfusion hc),
      if_neg (by rw [hpub]; exact fun hc => Bool.noConfusion hc), if_pos hlen]
  · intro hdr hpub hlen hpf
    have herr : publishResults proofOk voteId clearCounts s =
        .error (.decryptionProofInvalid voteId) := by
      unfold publishResults
      rw [if_neg (not_not_intro hid), if_neg (by rw [hdr]; exact fun hc => Bool.noConfusion hc),
        if_neg (by rw [hpub]; exact fun hc => Bool.noConfusion hc),
        if_neg (not_not_intro hlen), if_pos hpf]
    refine ⟨herr, ?_⟩
    unfold step
    simp only [applyOp]
    rw [herr]
  · intro hdr hpub hlen hpf
    have hok : publishResults proofOk voteId clearCounts s =
        .ok ⟨s.votes.set (voteId - 1)
               { voteAt s (voteId - 1) with
                 publicResults := clearCounts, resultsPublished := true },
             s.hasVoted⟩ :=
      (publishResults_ok_iff proofOk voteId clearCounts s _).mpr
        ⟨hid, hdr, hpub, hlen, hpf, rfl⟩
    refine ⟨_, hok, ?_⟩
    have hva : voteAt
        (⟨s.votes.set (voteId - 1)
            { voteAt s (voteId - 1) with
              publicResults := clearCounts, resultsPublished := true },
          s.hasVoted⟩ : VoteState) (voteId - 1) =
        { voteAt s (voteId - 1) with
          publicResults := clearCounts, resultsPublished := true } := by
      unfold voteAt
      exact getD_set_self s.votes (voteId - 1) _ hp
    refine ⟨by rw [hva], by rw [hva], ?_⟩
    intro proofOk2 clearCounts2
    have hid₂ : voteIdOk
        (⟨s.votes.set (voteId - 1)
            { voteAt s (voteId - 1) with
              publicResults := clearCounts, resultsPublished := true },
          s.hasVoted⟩ : VoteState) voteId := by
      refine ⟨hne, ?_⟩
      simpa using hle
    unfold publishResults
    rw [if_neg (not_not_intro hid₂),
      if_neg (by rw [hva]; simp only []; rw [hdr]; exact fun hc => Bool.noConfusion hc),
      if_pos (by rw [hva])]

/-- Witness for C2: on the demo poll — no request yet gives
`ResultsNotReady`; after the request, a failing proof gives
`DecryptionProofInvalid` with unchanged state, a wrong length gives
`InvalidResultsLength`, a valid publish succeeds, and a repeat gives
`ResultsAlreadyPublished`. -/
theorem publish_results_spec_witness :
    publishResults true 1 [9, 9] votedDemo = .error (.resultsNotReady 1) ∧
    (publishResults false 1 [1, 0] reqDemo = .error (.decryptionProofInvalid 1) ∧
      step (.publish false 1 [1, 0]) reqDemo = reqDemo) ∧
    publishResults true 1 [1, 0, 0] reqDemo = .error (.invalidResultsLength 2 3) ∧
    callOk (publishResults true 1 [1, 0] reqDemo) = true ∧
    publishResults true 1 [7, 7] pubDemo = .error (.resultsAlreadyPublished 1) := by
  refine ⟨?_, ?_, ?_, ?_, ?_⟩
  · exact (publish_results_spec true 1 [9, 9] votedDemo (by decide)).1 (by decide)
  · exact (publish_results_spec false 1 [1, 0] reqDemo (by decide)).2.2.2.1
      (by decide) (by decide) (by decide) (by decide)
  · exact (publish_results_spec true 1 [1, 0, 0] reqDemo (by decide)).2.2.1
      (by decide) (by decide) (by decide)
  · obtain ⟨s₂, hok, -⟩ := (publish_results_spec true 1 [1, 0] reqDemo (by decide)).2.2.2.2
      (by decide) (by decide) (by decide) (by decide)
    rw [hok]
    rfl
  · exact (publish_results_spec true 1 [7, 7] pubDemo (by decide)).2.1 (by decide) (by decide)

/-! ### Claim C4: exactly-once voting -/

theorem applyOp_ok_hasVoted (op : Op) (s s₂ : VoteState) (h : applyOp op s = .ok s₂) :
    s₂.hasVoted = s.hasVoted ∨ ∃ pr, s₂.hasVoted = pr :: s.hasVoted := by
  cases op with
  | create now sender title options st en =>
    simp only [applyOp] at h
    cases hc : createVote now sender title options st en s with
    | error e => rw [hc] at h; exact absurd h (by simp)
    | ok p =>
      rw [hc] at h
      obtain ⟨ps, pid⟩ := p
      rw [createVote_ok_iff] at hc
      left
      have h2 : ps = s₂ := Except.ok.inj h
      rw [← h2, hc.2.2.2.2.2]
  | cast now sender voteId choice =>
    simp only [applyOp] at h
    rw [castVote_ok_iff] at h
    right
    exact ⟨(voteId, sender), by rw [h.2.2.2.2]⟩
  | requestDec now voteId =>
    simp only [applyOp] at h
    rw [requestDec_ok_iff] at h
    left
    rw [h.2.2.2]
  | publish proofOk voteId clearCounts =>
    simp only [applyOp] at h
    rw [publishResults_ok_iff] at h
    left
    rw [h.2.2.2.2.2]

theorem hasVotedMark_mono (op : Op) (s : VoteState) (p v : Nat)
    (h : hasVotedMark s p v = true) : hasVotedMark (step op s) p v = true := by
  unfold step
  cases happ : applyOp op s with
  | error e => exact h
  | ok s₂ =>
    rcases applyOp_ok_hasVoted op s s₂ happ with heq | ⟨pr, heq⟩
    · unfold hasVotedMark at h ⊢
      rw [heq]
      exact h
    · unfold hasVotedMark at h ⊢
      rw [heq]
      show ((p, v) == pr || s.hasVoted.contains (p, v)) = true
      rw [h]
      exact Bool.or_true _

/-- C4 counterexample: after voter 1 successfully cast on the demo poll
(window `[10, 20]`), a later `castVote` by the same voter at `now = 25`
fails `VotingEnded`, not `AlreadyVoted` — the time-window checks run before
the marker check. -/
theorem second_vote_after_end_fails_votingEnded :
    hasVotedMark votedDemo 1 1 = true ∧
    castVote 25 1 1 0 votedDemo = .error (.votingEnded 1) ∧
    castVote 25 1 1 0 votedDemo ≠ .error (.alreadyVoted 1 1) := by
  refine ⟨by decide, by decide, by decide⟩

/-- C4 (amended).  Once the `(poll, voter)` marker is set, every later
`castVote` by that voter for that poll (any encrypted input) fails, leaving
the state unchanged; within the voting window the error is `AlreadyVoted`
(outside it the earlier time-window check fires first); and the marker
survives every further operation, so the rejection is permanent. -/
theorem already_voted_rejection (now sender voteId choice : Nat) (s : VoteState)
    (hmk : hasVotedMark s voteId sender = true) :
    (∀ s₂, castVote now sender voteId choice s ≠ .ok s₂) ∧
    step (.cast now sender voteId choice) s = s ∧
    (voteIdOk s voteId → (voteAt s (voteId - 1)).startTime ≤ now →
      now ≤ (voteAt s (voteId - 1)).endTime →
      castVote now sender voteId choice s = .error (.alreadyVoted voteId sender)) ∧
    (∀ op, hasVotedMark (step op s) voteId sender = true) := by
  have hfail : ∀ s₂, castVote now sender voteId choice s ≠ .ok s₂ := by
    intro s₂ hc
    rw [castVote_ok_iff] at hc
    have hfalse := hc.2.2.2.1
    rw [hfalse] at hmk
    exact Bool.noConfusion hmk
  refine ⟨hfail, ?_, ?_, ?_⟩
  · unfold step
    simp only [applyOp]
    cases hcv : castVote now sender voteId choice s with
    | error e => rfl
    | ok s₂ => exact absurd hcv (hfail s₂)
  · intro hid h1 h2
    unfold castVote
    rw [if_neg (not_not_intro hid), if_neg (by omega), if_neg (by omega), if_pos hmk]
  · intro op
    exact hasVotedMark_mono op s voteId sender hmk

/-- Witness for C4 (amended): voter 1, having cast on the demo poll, is
rejected with `AlreadyVoted` on a second in-window attempt with a different
encrypted input, the rejected call leaves the state unchanged, and the
marker survives a later operation. -/
theorem already_voted_rejection_witness :
    castVote 16 1 1 1 votedDemo = .error (.alreadyVoted 1 1) ∧
    step (.cast 16 1 1 1) votedDemo = votedDemo ∧
    hasVotedMark (step (.requestDec 21 1) votedDemo) 1 1 = true := by
  have h := already_voted_rejection 16 1 1 1 votedDemo (by decide)
  exact ⟨h.2.2.1 (by decide) (by decide) (by decide), h.2.1, h.2.2.2 (.requestDec 21 1)⟩

/-! ### Claim C3: lifecycle-flag invariant -/

theorem getD_out {α : Type} [Inhabited α] (l : List α) (j : Nat) (h : l.length ≤ j) :
    l.getD j default = default := by
  simp [List.getD, List.getElem?_eq_none h]

/-- C3.  Flag transition invariant, for every state, operation and poll
slot: `decryptionRequested` flips to true only through a
`requestResultsDecryption` on that poll executed at a time strictly after
its `endTime`; `resultsPublished` flips to true only while
`decryptionRequested` already holds; and neither flag ever goes back from
true to false. -/
theorem lifecycle_flag_invariant (s : VoteState) (op : Op) (i : Nat) :
    ((voteAt s i).decryptionRequested = true →
      (voteAt (step op s) i).decryptionRequested = true) ∧
    ((voteAt s i).resultsPublished = true →
      (voteAt (step op s) i).resultsPublished = true) ∧
    ((voteAt (step op s) i).decryptionRequested = true →
      (voteAt s i).decryptionRequested = true ∨
        ∃ now, op = .requestDec now (i + 1) ∧ (voteAt s i).endTime < now) ∧
    ((voteAt (step op s) i).resultsPublished = true →
      (voteAt s i).resultsPublished = true ∨
        (voteAt s i).decryptionRequested = true) := by
  cases happ : applyOp op s with
  | error e =>
    have hstep : step op s = s := step_of_error op s e happ
    rw [hstep]
    exact ⟨fun h => h, fun h => h, fun h => .inl h, fun h => .inl h⟩
  | ok s₂ =>
    have hstep : step op s = s₂ := by unfold step; rw [happ]
    rw [hstep]
    cases op with
    | create now sender title options st en =>
      simp only [applyOp] at happ
      cases hc : createVote now sender title options st en s with
      | error e => rw [hc] at happ; exact absurd happ (by simp)
      | ok p =>
        rw [hc] at happ
        obtain ⟨ps, pid⟩ := p
        have hps : ps = s₂ := Except.ok.inj happ
        rw [createVote_ok_iff] at hc
        obtain ⟨-, -, -, -, -, hs⟩ := hc
        rw [← hps, hs]
        by_cases hi : i = s.votes.length
        · have h1 : voteAt s i = default := by
            unfold voteAt
            exact getD_out s.votes i (by omega)
          have h2 : voteAt
              (⟨s.votes ++
                  [⟨title, options, st, en, sender, false, false,
                    List.replicate options.length (fheAsEuint32 0), []⟩],
                s.hasVoted⟩ : VoteState) i =
              ⟨title, options, st, en, sender, false, false,
                List.replicate options.length (fheAsEuint32 0), []⟩ := by
            unfold voteAt
            rw [hi]
            exact getD_append_right s.votes _
          rw [h1, h2]
          exact ⟨fun h => Bool.noConfusion h, fun h => Bool.noConfusion h,
            fun h => Bool.noConfusion h, fun h => Bool.noConfusion h⟩
        · have h2 : voteAt
              (⟨s.votes ++
                  [⟨title, options, st, en, sender, false, false,
                    List.replicate options.length (fheAsEuint32 0), []⟩],
                s.hasVoted⟩ : VoteState) i = voteAt s i := by
            unfold voteAt
            exact getD_append_left s.votes _ i hi
          rw [h2]
          exact ⟨fun h => h, fun h => h, fun h => .inl h, fun h => .inl h⟩
    | cast now sender voteId choice =>
      simp only [applyOp] at happ
      rw [castVote_ok_iff] at happ
      obtain ⟨hid, -, -, -, hs⟩ := happ
      have hp : voteId - 1 < s.votes.length := by
        obtain ⟨ha, hb⟩ := hid; omega
      rw [hs]
      by_cases hi : i = voteId - 1
      · rw [hi]
        have h2 : voteAt
            (⟨s.votes.set (voteId - 1)
                { voteAt s (voteId - 1) with
                  encryptedCounts :=
                    incrementCounts (fheFromExternal choice)
                      (voteAt s (voteId - 1)).options.length
                      (voteAt s (voteId - 1)).encryptedCounts },
              (voteId, sender) :: s.hasVoted⟩ : VoteState) (voteId - 1) =
            { voteAt s (voteId - 1) with
              encryptedCounts :=
                incrementCounts (fheFromExternal choice)
                  (voteAt s (voteId - 1)).options.length
                  (voteAt s (voteId - 1)).encryptedCounts } := by
          unfold voteAt
          exact getD_set_self s.votes (voteId - 1) _ hp
        rw [h2]
        exact ⟨fun h => h, fun h => h, fun h => .inl h, fun h => .inl h⟩
      · have h2 : voteAt
            (⟨s.votes.set (voteId - 1)
                { voteAt s (voteId - 1) with
                  encryptedCounts :=
                    incrementCounts (fheFromExternal choice)
                      (voteAt s (voteId - 1)).options.length
                      (voteAt s (voteId - 1)).encryptedCounts },
              (voteId, sender) :: s.hasVoted⟩ : VoteState) i = voteAt s i := by
          unfold voteAt
          exact getD_set_ne s.votes (voteId - 1) i _ (fun hh => hi hh.symm)
        rw [h2]
        exact ⟨fun h => h, fun h => h, fun h => .inl h, fun h => .inl h⟩
    | requestDec now voteId =>
      simp only [applyOp] at happ
      rw [requestDec_ok_iff] at happ
      obtain ⟨hid, hen, hdr, hs⟩ := happ
      have hp : voteId - 1 < s.votes.length := by
        obtain ⟨ha, hb⟩ := hid; omega
      rw [hs]
      by_cases hi : i = voteId - 1
      · rw [hi]
        have h2 : voteAt
            (⟨s.votes.set (voteId - 1)
                { voteAt s (voteId - 1) with
                  decryptionRequested := true,
                  encryptedCounts :=
                    (voteAt s (voteId - 1)).encryptedCounts.map fheMakePubliclyDecryptable },
              s.hasVoted⟩ : VoteState) (voteId - 1) =
            { voteAt s (voteId - 1) with
              decryptionRequested := true,
              encryptedCounts :=
                (voteAt s (voteId - 1)).encryptedCounts.map fheMakePubliclyDecryptable } := by
          unfold voteAt
          exact getD_set_self s.votes (voteId - 1) _ hp
        rw [h2]
        have hvid : voteId = voteId - 1 + 1 := by
          obtain ⟨ha, hb⟩ := hid; omega
        refine ⟨fun _ => rfl, fun h => h, fun _ => ?_, fun h => .inl h⟩
        right
        exact ⟨now, by rw [← hvid], hen⟩
      · have h2 : voteAt
            (⟨s.votes.set (voteId - 1)
                { voteAt s (voteId - 1) with
                  decryptionRequested := true,
                  encryptedCounts :=
                    (voteAt s (voteId - 1)).encryptedCounts.map fheMakePubliclyDecryptable },
              s.hasVoted⟩ : VoteState) i = voteAt s i := by
          unfold voteAt
          exact getD_set_ne s.votes (voteId - 1) i _ (fun hh => hi hh.symm)
        rw [h2]
        exact ⟨fun h => h, fun h => h, fun h => .inl h, fun h => .inl h⟩
    | publish proofOk voteId clearCounts =>
      simp only [applyOp] at happ
      rw [publishResults_ok_iff] at happ
      obtain ⟨hid, hdr, hpub, hlen, hpf, hs⟩ := happ
      have hp : voteId - 1 < s.votes.length := by
        obtain ⟨ha, hb⟩ := hid; omega
      rw [hs]
      by_cases hi : i = voteId - 1
      · rw [hi]
        have h2 : voteAt
            (⟨s.votes.set (voteId - 1)
                { voteAt s (voteId - 1) with
                  publicResults := clearCounts, resultsPublished := true },
              s.hasVoted⟩ : VoteState) (voteId - 1) =
            { voteAt s (voteId - 1) with
              publicResults := clearCounts, resultsPublished := true } := by
          unfold voteAt
          exact getD_set_self s.votes (voteId - 1) _ hp
        rw [h2]
        exact ⟨fun h => h, fun _ => rfl, fun h => .inl h, fun _ => .inr hdr⟩
      · have h2 : voteAt
            (⟨s.votes.set (voteId - 1)
                { voteAt s (voteId - 1) with
                  publicResults := clearCounts, resultsPublished := true },
              s.hasVoted⟩ : VoteState) i = voteAt s i := by
          unfold voteAt
          exact getD_set_ne s.votes (voteId - 1) i _ (fun hh => hi hh.symm)
        rw [h2]
        exact ⟨fun h => h, fun h => h, fun h => .inl h, fun h => .inl h⟩

/-- Witness for C3: applying the invariant to the demo poll — after
decryption was requested, a publish operation preserves the
`decryptionRequested` flag. -/
theorem lifecycle_flag_invariant_witness :
    (voteAt (step (.publish true 1 [1, 0]) reqDemo) 0).decryptionRequested = true :=
  (lifecycle_flag_invariant reqDemo (.publish true 1 [1, 0]) 0).1 (by decide)

/-! ### Claim C9: length consistency invariant -/

theorem voteAt_mem (s : VoteState) (p : Nat) (hp : p < s.votes.length) :
    voteAt s p ∈ s.votes := by
  unfold voteAt
  rw [List.getD_eq_getElem s.votes default hp]
  exact List.getElem_mem hp

/-- C9.  Length consistency: the empty initial state is consistent, and
every operation preserves per-poll consistency — the number of encrypted
accumulators equals the number of options, and once `resultsPublished`
holds, the published results array also has one entry per option. -/
theorem length_consistency_invariant :
    StateWF initialState ∧
    ∀ (op : Op) (s : VoteState), StateWF s → StateWF (step op s) := by
  constructor
  · intro v hv
    exact absurd hv (List.not_mem_nil v)
  · intro op s hwf
    unfold step
    cases happ : applyOp op s with
    | error e => exact hwf
    | ok s₂ =>
      cases op with
      | create now sender title options st en =>
        simp only [applyOp] at happ
        cases hc : createVote now sender title options st en s with
        | error e => rw [hc] at happ; exact absurd happ (by simp)
        | ok p =>
          rw [hc] at happ
          obtain ⟨ps, pid⟩ := p
          have hps : ps = s₂ := Except.ok.inj happ
          rw [createVote_ok_iff] at hc
          obtain ⟨-, -, -, -, -, hs⟩ := hc
          rw [← hps, hs]
          intro v hv
          simp only [List.mem_append, List.mem_cons, List.not_mem_nil, or_false] at hv
          rcases hv with hv | rfl
          · exact hwf v hv
          · constructor
            · exact List.length_replicate options.length (fheAsEuint32 0)
            · intro hfalse
              exact absurd hfalse (by simp)
      | cast now sender voteId choice =>
        simp only [applyOp] at happ
        rw [castVote_ok_iff] at happ
        obtain ⟨hid, -, -, -, hs⟩ := happ
        have hp : voteId - 1 < s.votes.length := by
          obtain ⟨ha, hb⟩ := hid; omega
        rw [hs]
        intro v hv
        rcases List.mem_or_eq_of_mem_set hv with hv | rfl
        · exact hwf v hv
        · obtain ⟨hc1, hc2⟩ := hwf (voteAt s (voteId - 1)) (voteAt_mem s (voteId - 1) hp)
          constructor
          · rw [incrementCounts_length]
            exact hc1
          · exact hc2
      | requestDec now voteId =>
        simp only [applyOp] at happ
        rw [requestDec_ok_iff] at happ
        obtain ⟨hid, -, -, hs⟩ := happ
        have hp : voteId - 1 < s.votes.length := by
          obtain ⟨ha, hb⟩ := hid; omega
        rw [hs]
        intro v hv
        rcases List.mem_or_eq_of_mem_set hv with hv | rfl
        · exact hwf v hv
        · obtain ⟨hc1, hc2⟩ := hwf (voteAt s (voteId - 1)) (voteAt_mem s (voteId - 1) hp)
          constructor
          · rw [List.length_map]
            exact hc1
          · exact hc2
      | publish proofOk voteId clearCounts =>
        simp only [applyOp] at happ
        rw [publishResults_ok_iff] at happ
        obtain ⟨hid, -, -, hlen, -, hs⟩ := happ
        have hp : voteId - 1 < s.votes.length := by
          obtain ⟨ha, hb⟩ := hid; omega
        rw [hs]
        intro v hv
        rcases List.mem_or_eq_of_mem_set hv with hv | rfl
        · exact hwf v hv
        · obtain ⟨hc1, hc2⟩ := hwf (voteAt s (voteId - 1)) (voteAt_mem s (voteId - 1) hp)
          exact ⟨hc1, fun _ => hlen⟩

/-- Witness for C9: the invariant applied to a concrete ballot on the demo
poll (whose state is checked consistent by evaluation). -/
theorem length_consistency_invariant_witness :
    StateWF (step (.cast 15 1 1 0) windowDemo) :=
  length_consistency_invariant.2 (.cast 15 1 1 0) windowDemo (by decide)

/-! ### Claim C10: frame of cast_vote -/

/-- C10.  Frame: a successful `castVote` changes only the `(poll, voter)`
marker — from false to true — and the encrypted accumulators of that one
poll; the poll count, every other poll, every other marker, and all
non-accumulator fields of the voted poll are unchanged. -/
theorem cast_vote_frame (now sender voteId choice : Nat) (s s₂ : VoteState)
    (h : castVote now sender voteId choice s = .ok s₂) :
    s₂.votes.length = s.votes.length ∧
    (∀ j, j ≠ voteId - 1 → voteAt s₂ j = voteAt s j) ∧
    (voteAt s₂ (voteId - 1)).title = (voteAt s (voteId - 1)).title ∧
    (voteAt s₂ (voteId - 1)).options = (voteAt s (voteId - 1)).options ∧
    (voteAt s₂ (voteId - 1)).startTime = (voteAt s (voteId - 1)).startTime ∧
    (voteAt s₂ (voteId - 1)).endTime = (voteAt s (voteId - 1)).endTime ∧
    (voteAt s₂ (voteId - 1)).creator = (voteAt s (voteId - 1)).creator ∧
    (voteAt s₂ (voteId - 1)).decryptionRequested =
      (voteAt s (voteId - 1)).decryptionRequested ∧
    (voteAt s₂ (voteId - 1)).resultsPublished =
      (voteAt s (voteId - 1)).resultsPublished ∧
    (voteAt s₂ (voteId - 1)).publicResults = (voteAt s (voteId - 1)).publicResults ∧
    hasVotedMark s voteId sender = false ∧
    hasVotedMark s₂ voteId sender = true ∧
    (∀ p v, (p, v) ≠ (voteId, sender) → hasVotedMark s₂ p v = hasVotedMark s p v) := by
  rw [castVote_ok_iff] at h
  obtain ⟨hid, -, -, hmk, hs⟩ := h
  have hp : voteId - 1 < s.votes.length := by
    obtain ⟨ha, hb⟩ := hid; omega
  have hva : voteAt s₂ (voteId - 1) =
      { voteAt s (voteId - 1) with
        encryptedCounts :=
          incrementCounts (fheFromExternal choice) (voteAt s (voteId - 1)).options.length
            (voteAt s (voteId - 1)).encryptedCounts } := by
    rw [hs]
    unfold voteAt
    exact getD_set_self s.votes (voteId - 1) _ hp
  refine ⟨?_, ?_, by rw [hva], by rw [hva], by rw [hva], by rw [hva], by rw [hva],
    by rw [hva], by rw [hva], by rw [hva], hmk, ?_, ?_⟩
  · rw [hs]
    simp
  · intro j hj
    rw [hs]
    unfold voteAt
    exact getD_set_ne s.votes (voteId - 1) j _ (fun hh => hj hh.symm)
  · rw [hs]
    unfold hasVotedMark
    show ((voteId, sender) == (voteId, sender) || s.hasVoted.contains (voteId, sender)) = true
    simp
  · intro p v hpv
    rw [hs]
    unfold hasVotedMark
    show ((p, v) == (voteId, sender) || s.hasVoted.contains (p, v)) =
      s.hasVoted.contains (p, v)
    simp [hpv]

/-- Witness for C10: the frame conditions hold on the concrete demo ballot
— the poll count is unchanged, the voter's marker is set, another voter's
marker is unchanged, and the poll's options are untouched. -/
theorem cast_vote_frame_witness :
    votedDemo.votes.length = windowDemo.votes.length ∧
    hasVotedMark votedDemo 1 1 = true ∧
    hasVotedMark votedDemo 1 2 = hasVotedMark windowDemo 1 2 ∧
    (voteAt votedDemo 0).options = (voteAt windowDemo 0).options := by
  have h := cast_vote_frame 15 1 1 0 windowDemo votedDemo (by rfl)
  exact ⟨h.1, h.2.2.2.2.2.2.2.2.2.2.2.1,
    h.2.2.2.2.2.2.2.2.2.2.2.2 1 2 (by decide), h.2.2.2.1⟩

end InvisiVote
